import Mathlib

/-!
Verification development for the dynamic-tool-search repository.

The definitions below are shallow embeddings of the TypeScript source:

* `ToolDefinition`   — src/types.ts `ToolDefinition` (the opaque Zod schema is
  modelled as its serialized form, a `String`; the opaque `execute` capability
  is out of scope per the data model and is not part of the observable state).
* `jsMapSet` / `jsMapOfList` — the JavaScript `Map` semantics used by the
  per-turn merge in src/agent.ts: insertion-ordered key/value store where
  setting an existing key keeps its position and replaces its value.
* `mergeTools`       — the merge expression in src/agent.ts `handlePrompt`
  (`[...new Map([...pastTools, ...relevantTools].map((t) => [t.id, t])).values()]`).
* `ToolRegistry` operations — src/registry.ts (`register`, `get`, `getMultiple`).
* `DatabaseTs.findRelevantTools` / `MainTs.findRelevantTools` — the SQL query in
  src/database.ts resp. src/main.ts (filter by `1 - (embedding <=> q) > thr`,
  `ORDER BY embedding <=> q`, `LIMIT topK`).  The pgvector cosine-distance
  operator `<=>` and the FastEmbed model are external collaborators and are
  passed in as function parameters.
* `registerToolInDatabase` — the `INSERT ... ON CONFLICT (tool_id) DO UPDATE`
  upsert in src/database.ts (every column except `created_at` is overwritten;
  the presentation-only SERIAL primary key is not modelled).
* `handlePrompt`     — src/agent.ts `handlePrompt` up to the state update
  (`pastTools.splice(0, pastTools.length, ...mergedTools)`); the agent
  invocation after it is an out-of-scope collaborator.
* `mainLoop`         — the interactive readline loop of the refactored entry
  point (src/unnamed/part_000): `exit` (trimmed, lower-cased) breaks the loop,
  blank lines re-prompt, other lines are handled; a rethrown per-turn error
  escapes the loop into the catch outside it, which exits the process.
-/

namespace DynamicToolSearch

/-- Tool metadata from src/types.ts.  `parameters` is the opaque serialized
parameter schema (`JSON.stringify(tool.parameters.shape)` is what ever reaches
the observable store); the `execute` capability is opaque and omitted. -/
structure ToolDefinition where
  id : String
  name : String
  description : String
  keywords : List String
  parameters : String
deriving DecidableEq, Repr

/-! ### JavaScript `Map` model

An insertion-ordered association list.  `Map.prototype.set` on an existing key
keeps the entry at its original position and replaces the value; on a fresh key
it appends the entry at the end. -/

/-- JS `Map.prototype.set`. -/
def jsMapSet {β : Type} (m : List (String × β)) (k : String) (v : β) :
    List (String × β) :=
  if m.any (fun p => p.1 = k) then
    m.map (fun p => if p.1 = k then (p.1, v) else p)
  else
    m ++ [(k, v)]

/-- The keys of an association list, in order. -/
def keysOf {β : Type} (m : List (String × β)) : List String :=
  m.map Prod.fst

/-- JS `new Map(list.map((t) => [t.id, t]))`: fold `set` over the entry list. -/
def jsMapFold (m : List (String × ToolDefinition)) (l : List ToolDefinition) :
    List (String × ToolDefinition) :=
  l.foldl (fun m t => jsMapSet m t.id t) m

def jsMapOfList (l : List ToolDefinition) : List (String × ToolDefinition) :=
  jsMapFold [] l

/-- The per-turn merge from src/agent.ts `handlePrompt` (and its duplicate in
src/main.ts):
`[...new Map([...pastTools, ...relevantTools].map((t) => [t.id, t])).values()]`. -/
def mergeTools (pastTools relevantTools : List ToolDefinition) :
    List ToolDefinition :=
  (jsMapOfList (pastTools ++ relevantTools)).map Prod.snd

/-! ### The spec's description of the merge (for the C1 characterization)

Section 4.4 of the spec describes `mergeAndAccumulate` as a walk over
`previous ++ incoming` that appends a fresh id at its position and, on a
repeated id, keeps the existing position while replacing the stored value. -/

/-- One step of the walk described by the spec: append a fresh id, or replace
in place on a repeated id. -/
def walkUpsert (acc : List ToolDefinition) (t : ToolDefinition) :
    List ToolDefinition :=
  if acc.any (fun u => u.id = t.id) then
    acc.map (fun u => if u.id = t.id then t else u)
  else
    acc ++ [t]

/-- Modelled from the spec: the walk over `previous` followed by `incoming`
described in section 4.4 (`mergeAndAccumulate`). -/
def mergeWalkSpec (previous incoming : List ToolDefinition) :
    List ToolDefinition :=
  (previous ++ incoming).foldl walkUpsert []

/-! ### Tool registry (src/registry.ts)

`ToolRegistry` stores tools in a JS `Map<string, ToolDefinition>` keyed by
`tool.id`. -/

/-- `ToolRegistry.register`: `this.tools.set(tool.id, tool)`. -/
def registryRegister (m : List (String × ToolDefinition)) (t : ToolDefinition) :
    List (String × ToolDefinition) :=
  jsMapSet m t.id t

/-- `ToolRegistry.get`: `this.tools.get(toolId)`. -/
def registryGet (m : List (String × ToolDefinition)) (toolId : String) :
    Option ToolDefinition :=
  (m.find? (fun p => p.1 = toolId)).map Prod.snd

/-- `ToolRegistry.getMultiple`:
`toolIds.map((id) => this.get(id)).filter((tool) => tool !== undefined)`. -/
def getMultiple (m : List (String × ToolDefinition)) (toolIds : List String) :
    List ToolDefinition :=
  (toolIds.map (registryGet m)).filterMap (fun x => x)

/-- The registry stores every tool under its own id (`set(tool.id, tool)`), so
every binding's key is its value's id.  Holds for every registry built with
`registryRegister`. -/
def RegistryWF (m : List (String × ToolDefinition)) : Prop :=
  ∀ p ∈ m, p.1 = p.2.id

/-! ### Embedding provider (src/embedding.ts, external collaborator)

`generateEmbedding` either returns a vector or throws (model not initialized /
failed generation / empty batch).  It is modelled as a black-box function into
`Except`. -/

inductive EmbeddingError where
  | modelNotInitialized
  | failedToGenerate
  | emptyBatch
deriving DecidableEq, Repr

/-- Black-box model of `generateEmbedding` (src/embedding.ts). -/
abbrev EmbedFn := String → Except EmbeddingError (List ℚ)

/-- Black-box model of pgvector's cosine-distance operator
`stored <=> query` used by the SQL in src/database.ts and src/main.ts. -/
abbrev DistFn := List ℚ → List ℚ → ℚ

/-! ### Similarity index (src/database.ts)

One row of the `tool_embeddings` table, as written by
`registerToolInDatabase`.  The SERIAL primary key is presentation-only and not
modelled; `tool_definition` is the JSONB snapshot
`{id, name, description, keywords}`. -/

/-- The `tool_definition` JSONB snapshot column. -/
structure ToolMeta where
  id : String
  name : String
  description : String
  keywords : List String
deriving DecidableEq, Repr

/-- One row of `tool_embeddings`. -/
structure DbRow where
  toolId : String
  toolName : String
  description : String
  keywords : List String
  parameters : String
  toolDefinition : ToolMeta
  embedding : List ℚ
  createdAt : ℕ
deriving DecidableEq, Repr

/-- The searchable text built by `registerToolInDatabase`:
the template literal holding name, description and space-joined keywords on
indented lines, then `.trim()`. -/
def searchableText (t : ToolDefinition) : String :=
  ("\n    " ++ t.name ++ "\n    " ++ t.description ++ "\n    "
    ++ String.intercalate " " t.keywords ++ "\n  ").trim

/-- `INSERT ... ON CONFLICT (tool_id) DO UPDATE` from src/database.ts
`registerToolInDatabase`: on conflict every column except `created_at` (and
the SERIAL key) is overwritten; otherwise a fresh row is appended with
`created_at = now`.  The embedding is generated first and a failure there
propagates before anything is written. -/
def registerToolInDatabase (embed : EmbedFn) (now : ℕ) (t : ToolDefinition)
    (table : List DbRow) : Except EmbeddingError (List DbRow) :=
  match embed (searchableText t) with
  | .error e => .error e
  | .ok emb =>
    .ok (if table.any (fun r => r.toolId = t.id) then
      table.map (fun r =>
        if r.toolId = t.id then
          { toolId := r.toolId, toolName := t.name,
            description := t.description, keywords := t.keywords,
            parameters := t.parameters,
            toolDefinition := ⟨t.id, t.name, t.description, t.keywords⟩,
            embedding := emb, createdAt := r.createdAt }
        else r)
    else
      table ++ [⟨t.id, t.name, t.description, t.keywords, t.parameters,
        ⟨t.id, t.name, t.description, t.keywords⟩, emb, now⟩])

/-! ### Row sorting (the SQL `ORDER BY embedding <=> $1`)

Insertion sort with a boolean comparator; any sorted permutation is a faithful
model of `ORDER BY` (the spec leaves tie-breaking implementation-defined). -/

def insertSorted {α : Type} (le : α → α → Bool) (a : α) : List α → List α
  | [] => [a]
  | b :: l => if le a b then a :: b :: l else b :: insertSorted le a l

def sortBy {α : Type} (le : α → α → Bool) : List α → List α
  | [] => []
  | b :: l => insertSorted le b (sortBy le l)

namespace DatabaseTs

/-- `findRelevantTools` from src/database.ts: embed the prompt, keep rows with
`1 - (embedding <=> q) > threshold`, order by `embedding <=> q` ascending,
take `LIMIT topK`, and return `(tool_id, similarity)` pairs. -/
def findRelevantTools (embed : EmbedFn) (dist : DistFn) (table : List DbRow)
    (userPrompt : String) (topK : ℕ := 5) (threshold : ℚ := 7/10) :
    Except EmbeddingError (List (String × ℚ)) :=
  match embed userPrompt with
  | .error e => .error e
  | .ok q =>
    let hits := table.filter (fun r => threshold < 1 - dist r.embedding q)
    let sorted := sortBy
      (fun a b => decide (dist a.embedding q ≤ dist b.embedding q)) hits
    .ok ((sorted.take topK).map (fun r => (r.toolId, 1 - dist r.embedding q)))

end DatabaseTs

namespace MainTs

/-- The duplicated `findRelevantTools` from the legacy entry point
src/main.ts: same defaults, same SQL, same row mapping. -/
def findRelevantTools (embed : EmbedFn) (dist : DistFn) (table : List DbRow)
    (userPrompt : String) (topK : ℕ := 5) (threshold : ℚ := 7/10) :
    Except EmbeddingError (List (String × ℚ)) :=
  match embed userPrompt with
  | .error e => .error e
  | .ok q =>
    let hits := table.filter (fun r => threshold < 1 - dist r.embedding q)
    let sorted := sortBy
      (fun a b => decide (dist a.embedding q ≤ dist b.embedding q)) hits
    .ok ((sorted.take topK).map (fun r => (r.toolId, 1 - dist r.embedding q)))

end MainTs

/-! ### Per-turn orchestration (src/agent.ts `handlePrompt`)

`handlePrompt` selects tools, merges them into `pastTools` and replaces the
session state in place (`pastTools.splice(0, pastTools.length, ...)`).  In the
pure model the new state is the `.ok` payload; an error from the selection
step is rethrown (the `catch` logs and rethrows) before the splice, leaving
the state unchanged.  The agent creation/generation after the splice is an
out-of-scope collaborator. -/

/-- `config.search` defaults from src/config.ts (`SEARCH_TOP_K` 3,
`SEARCH_SIMILARITY_THRESHOLD` 0.6). -/
structure SearchConfig where
  defaultTopK : ℕ
  defaultSimilarityThreshold : ℚ
deriving DecidableEq, Repr

/-- The type of the injected `findRelevantTools` argument of `handlePrompt`:
prompt, topK and threshold to ranked `(id, similarity)` pairs. -/
abbrev FindRelevantFn := String → ℕ → ℚ → Except EmbeddingError (List (String × ℚ))

/-- src/agent.ts `handlePrompt` up to the state update: on success the `.ok`
payload is the new `pastTools` (the splice); on error the state is untouched
and the error is rethrown. -/
def handlePrompt (cfg : SearchConfig) (frt : FindRelevantFn)
    (reg : List (String × ToolDefinition)) (prompt : String)
    (pastTools : List ToolDefinition) :
    Except EmbeddingError (List ToolDefinition) :=
  match frt prompt cfg.defaultTopK cfg.defaultSimilarityThreshold with
  | .error e => .error e
  | .ok tools =>
    let relevantTools := getMultiple reg (tools.map Prod.fst)
    .ok (mergeTools pastTools relevantTools)

/-! ### The interactive loop of the refactored entry point (src/unnamed/part_000)

The readline loop runs inside a single try/catch: a line trimming
(case-insensitively) to `exit` breaks out gracefully, a blank line re-prompts,
any other line is handled for one turn.  `handlePrompt` rethrows per-turn
errors, and because the catch sits outside the `while`, a rethrown error ends
the loop and the process exits with code 1. -/

inductive LoopResult where
  /-- The loop broke on an `exit` line; `rl.close()` and `process.exit(0)`. -/
  | graceful (handled : List String) (activeTools : List ToolDefinition)
  /-- A turn rethrew: the catch outside the loop logged and exited with 1. -/
  | crashed (handled : List String) (activeTools : List ToolDefinition)
  /-- Standard input was exhausted with neither exit nor error. -/
  | outOfInput (handled : List String) (activeTools : List ToolDefinition)
deriving DecidableEq, Repr

/-- The prompts the loop handed to `handlePrompt`, in order. -/
def LoopResult.handled : LoopResult → List String
  | .graceful h _ => h
  | .crashed h _ => h
  | .outOfInput h _ => h

/-- The session's `pastTools` when the loop ended. -/
def LoopResult.activeTools : LoopResult → List ToolDefinition
  | .graceful _ s => s
  | .crashed _ s => s
  | .outOfInput _ s => s

def LoopResult.isGraceful : LoopResult → Bool
  | .graceful _ _ => true
  | _ => false

/-- Record one more handled line in front of a loop outcome. -/
def LoopResult.afterTurn (line : String) : LoopResult → LoopResult
  | .graceful h s => .graceful (line :: h) s
  | .crashed h s => .crashed (line :: h) s
  | .outOfInput h s => .outOfInput (line :: h) s

/-- The `while (true)` readline loop of src/unnamed/part_000 `main`, run on a
finite list of input lines. -/
def mainLoop (cfg : SearchConfig) (frt : FindRelevantFn)
    (reg : List (String × ToolDefinition)) :
    List String → List ToolDefinition → LoopResult
  | [], past => .outOfInput [] past
  | line :: rest, past =>
    if line.trim.toLower = "exit" then
      .graceful [] past
    else if line.trim ≠ "" then
      match handlePrompt cfg frt reg line past with
      | .error _ => .crashed [line] past
      | .ok merged => (mainLoop cfg frt reg rest merged).afterTurn line
    else
      mainLoop cfg frt reg rest past

/-- The session state reached after the first `n` successful turns whose
incoming tool lists are given: each turn replaces the state with the merge of
the previous state and that turn's incoming tools (spec section 4.5). -/
def stateAfter (incomings : List (List ToolDefinition)) (n : ℕ) :
    List ToolDefinition :=
  (incomings.take n).foldl mergeTools []

/-! ### Concrete instances used to exercise the theorems -/

def toolA : ToolDefinition :=
  ⟨"a", "Tool A", "Does A things", ["alpha"], "schemaA"⟩

def toolB : ToolDefinition :=
  ⟨"b", "Tool B", "Does B things", ["beta"], "schemaB"⟩

/-- Same id as `toolB`, different content. -/
def toolB2 : ToolDefinition :=
  ⟨"b", "Tool B v2", "Updated B behaviour", ["beta", "fresh"], "schemaB2"⟩

def toolC : ToolDefinition :=
  ⟨"c", "Tool C", "Does C things", ["gamma"], "schemaC"⟩

/-- A registry holding `toolA` and `toolB`. -/
def regW : List (String × ToolDefinition) :=
  registryRegister (registryRegister [] toolA) toolB

/-- The shipped search defaults (`SEARCH_TOP_K` 3,
`SEARCH_SIMILARITY_THRESHOLD` 0.6). -/
def cfg0 : SearchConfig := ⟨3, 3/5⟩

/-- A selection function that always succeeds with an empty candidate list. -/
def frtOkW : FindRelevantFn := fun _ _ _ => .ok []

/-- A selection function that fails on the prompt `q`. -/
def frtFail : FindRelevantFn := fun p _ _ =>
  if p = "q" then .error .emptyBatch else .ok []

/-- A selection function that always proposes tool id `a`. -/
def frtA : FindRelevantFn := fun _ _ _ => .ok [("a", 9/10)]

/-- An embedding provider returning a constant vector. -/
def embedW : EmbedFn := fun _ => .ok []

/-- A distance operator reading the stored vector's head. -/
def distW : DistFn := fun stored _ => stored.headD 0

def rowW (i : String) (d : ℚ) : DbRow :=
  ⟨i, i, "row", [], "schema", ⟨i, i, "row", []⟩, [d], 0⟩

/-- Four stored rows with similarities 9/10, 8/10, 7/10 and exactly 1/2
against `distW` and any query vector. -/
def tableW : List DbRow :=
  [rowW "t1" (1/10), rowW "t2" (2/10), rowW "t3" (3/10), rowW "t4" (1/2)]

/-! ### Lemmas about the JS `Map` model and the merge -/

theorem jsMapFold_nil (m : List (String × ToolDefinition)) :
    jsMapFold m [] = m := rfl

theorem jsMapFold_cons (m : List (String × ToolDefinition))
    (t : ToolDefinition) (l : List ToolDefinition) :
    jsMapFold m (t :: l) = jsMapFold (jsMapSet m t.id t) l := rfl

theorem mem_keysOf {β : Type} {m : List (String × β)} {k : String} :
    k ∈ keysOf m ↔ ∃ p ∈ m, p.1 = k := by
  unfold keysOf
  simp [List.mem_map]

theorem keysOf_jsMapSet {β : Type} (m : List (String × β)) (k : String)
    (v : β) :
    keysOf (jsMapSet m k v) =
      if m.any (fun p => p.1 = k) then keysOf m else keysOf m ++ [k] := by
  unfold jsMapSet keysOf
  split
  · rw [List.map_map]
    refine List.map_congr_left fun p _ => ?_
    by_cases h : p.1 = k <;> simp [Function.comp, h]
  · simp

theorem mem_keysOf_jsMapSet {β : Type} {m : List (String × β)} {k k' : String}
    {v : β} :
    k' ∈ keysOf (jsMapSet m k v) ↔ k' ∈ keysOf m ∨ k' = k := by
  rw [keysOf_jsMapSet]
  by_cases h : (m.any fun p => p.1 = k) = true
  · rw [if_pos h]
    rw [List.any_eq_true] at h
    obtain ⟨p, hp, hpk⟩ := h
    constructor
    · exact Or.inl
    · rintro (hk | rfl)
      · exact hk
      · exact mem_keysOf.mpr ⟨p, hp, by simpa using hpk⟩
  · rw [if_neg h]
    simp

theorem nodup_keysOf_jsMapSet {β : Type} {m : List (String × β)} {k : String}
    {v : β} (h : (keysOf m).Nodup) : (keysOf (jsMapSet m k v)).Nodup := by
  rw [keysOf_jsMapSet]
  by_cases hany : (m.any fun p => p.1 = k) = true
  · rwa [if_pos hany]
  · rw [if_neg hany]
    have hk : k ∉ keysOf m := by
      intro hmem
      obtain ⟨p, hp, hpk⟩ := mem_keysOf.mp hmem
      exact hany (List.any_eq_true.mpr ⟨p, hp, by simpa using hpk⟩)
    simp [List.nodup_append, h, hk]

theorem jsMapSet_wf {m : List (String × ToolDefinition)} {t : ToolDefinition}
    (h : ∀ p ∈ m, p.1 = p.2.id) : ∀ p ∈ jsMapSet m t.id t, p.1 = p.2.id := by
  intro p hp
  unfold jsMapSet at hp
  split at hp
  · rw [List.mem_map] at hp
    obtain ⟨q, hq, hqp⟩ := hp
    by_cases hqt : q.1 = t.id
    · rw [if_pos hqt] at hqp
      rw [← hqp]
      exact hqt
    · rw [if_neg hqt] at hqp
      rw [← hqp]
      exact h q hq
  · rw [List.mem_append] at hp
    rcases hp with hp | hp
    · exact h p hp
    · rw [List.mem_singleton] at hp
      rw [hp]

theorem any_key_eq_any_id {m : List (String × ToolDefinition)} {i : String}
    (h : ∀ p ∈ m, p.1 = p.2.id) :
    (m.any fun p => p.1 = i) = ((m.map Prod.snd).any fun u => u.id = i) := by
  induction m with
  | nil => rfl
  | cons p m ih =>
    simp only [List.any_cons, List.map_cons]
    rw [h p (List.mem_cons_self _ _),
      ih (fun q hq => h q (List.mem_cons_of_mem _ hq))]

theorem jsMapSet_map_snd {m : List (String × ToolDefinition)}
    {t : ToolDefinition} (h : ∀ p ∈ m, p.1 = p.2.id) :
    (jsMapSet m t.id t).map Prod.snd = walkUpsert (m.map Prod.snd) t := by
  unfold jsMapSet walkUpsert
  rw [← any_key_eq_any_id h]
  split
  · rw [List.map_map, List.map_map]
    refine List.map_congr_left fun p hp => ?_
    have hpid := h p hp
    by_cases hpt : p.1 = t.id
    · have hpt2 : p.2.id = t.id := hpid ▸ hpt
      simp [Function.comp, hpt, hpt2]
    · have hpt2 : ¬ p.2.id = t.id := fun hc => hpt (hpid ▸ hc)
      simp [Function.comp, hpt, hpt2]
  · simp

theorem jsMapFold_wf (l : List ToolDefinition) :
    ∀ m : List (String × ToolDefinition), (∀ p ∈ m, p.1 = p.2.id) →
      ∀ p ∈ jsMapFold m l, p.1 = p.2.id := by
  induction l with
  | nil => intro m h; exact h
  | cons t l ih =>
    intro m h
    rw [jsMapFold_cons]
    exact ih _ (jsMapSet_wf h)

theorem jsMapFold_keys_nodup (l : List ToolDefinition) :
    ∀ m : List (String × ToolDefinition),
      (keysOf m).Nodup → (keysOf (jsMapFold m l)).Nodup := by
  induction l with
  | nil => intro m h; exact h
  | cons t l ih =>
    intro m h
    rw [jsMapFold_cons]
    exact ih _ (nodup_keysOf_jsMapSet h)

theorem mem_keysOf_jsMapFold (l : List ToolDefinition) :
    ∀ (m : List (String × ToolDefinition)) (k : String),
      k ∈ keysOf (jsMapFold m l) ↔
        k ∈ keysOf m ∨ k ∈ l.map ToolDefinition.id := by
  induction l with
  | nil => intro m k; simp [jsMapFold_nil]
  | cons t l ih =>
    intro m k
    rw [jsMapFold_cons, ih, mem_keysOf_jsMapSet]
    simp only [List.map_cons, List.mem_cons]
    tauto

theorem jsMapFold_map_snd (l : List ToolDefinition) :
    ∀ m : List (String × ToolDefinition), (∀ p ∈ m, p.1 = p.2.id) →
      (jsMapFold m l).map Prod.snd = l.foldl walkUpsert (m.map Prod.snd) := by
  induction l with
  | nil => intro m _; rfl
  | cons t l ih =>
    intro m h
    rw [jsMapFold_cons, List.foldl_cons, ih _ (jsMapSet_wf h),
      jsMapSet_map_snd h]

theorem jsMapOfList_wf (l : List ToolDefinition) :
    ∀ p ∈ jsMapOfList l, p.1 = p.2.id :=
  jsMapFold_wf l [] (by intro p hp; cases hp)

theorem jsMapOfList_keys_nodup (l : List ToolDefinition) :
    (keysOf (jsMapOfList l)).Nodup :=
  jsMapFold_keys_nodup l [] List.nodup_nil

theorem mem_keysOf_jsMapOfList {l : List ToolDefinition} {k : String} :
    k ∈ keysOf (jsMapOfList l) ↔ k ∈ l.map ToolDefinition.id := by
  rw [jsMapOfList, mem_keysOf_jsMapFold]
  simp [keysOf]

theorem map_id_map_snd {m : List (String × ToolDefinition)}
    (h : ∀ p ∈ m, p.1 = p.2.id) :
    (m.map Prod.snd).map ToolDefinition.id = keysOf m := by
  unfold keysOf
  rw [List.map_map]
  exact List.map_congr_left fun p hp => (h p hp).symm

theorem mergeTools_eq_walk (previous incoming : List ToolDefinition) :
    mergeTools previous incoming = mergeWalkSpec previous incoming := by
  unfold mergeTools mergeWalkSpec jsMapOfList
  rw [jsMapFold_map_snd _ [] (by intro p hp; cases hp)]
  rfl

theorem mergeTools_map_id (previous incoming : List ToolDefinition) :
    (mergeTools previous incoming).map ToolDefinition.id
      = keysOf (jsMapOfList (previous ++ incoming)) :=
  map_id_map_snd (jsMapOfList_wf _)

theorem mergeTools_nodup_id (previous incoming : List ToolDefinition) :
    ((mergeTools previous incoming).map ToolDefinition.id).Nodup := by
  rw [mergeTools_map_id]
  exact jsMapOfList_keys_nodup _

theorem mem_mergeTools_id {previous incoming : List ToolDefinition}
    {k : String} :
    k ∈ (mergeTools previous incoming).map ToolDefinition.id ↔
      k ∈ (previous ++ incoming).map ToolDefinition.id := by
  rw [mergeTools_map_id]
  exact mem_keysOf_jsMapOfList

theorem mergeTools_length (previous incoming : List ToolDefinition) :
    (mergeTools previous incoming).length
      = ((previous ++ incoming).map ToolDefinition.id).toFinset.card := by
  have h1 : (mergeTools previous incoming).length
      = (keysOf (jsMapOfList (previous ++ incoming))).length := by
    unfold mergeTools keysOf
    simp
  rw [h1, ← List.toFinset_card_of_nodup (jsMapOfList_keys_nodup _)]
  congr 1
  ext a
  simp only [List.mem_toFinset]
  exact mem_keysOf_jsMapOfList

/-! ### Lemmas about the registry (src/registry.ts) -/

theorem registryGet_some_id {m : List (String × ToolDefinition)} {i : String}
    {t : ToolDefinition} (hwf : RegistryWF m) (hg : registryGet m i = some t) :
    t.id = i := by
  unfold registryGet at hg
  cases hf : m.find? (fun p => p.1 = i) with
  | none => rw [hf] at hg; cases hg
  | some p =>
    rw [hf] at hg
    have h1 : p.1 = i := by simpa using List.find?_some hf
    have h2 : p ∈ m := List.mem_of_find?_eq_some hf
    have h3 : p.2 = t := by simpa using hg
    rw [← h3, ← hwf p h2, h1]

theorem getMultiple_map_id (m : List (String × ToolDefinition))
    (ids : List String) (hwf : RegistryWF m) :
    (getMultiple m ids).map ToolDefinition.id
      = ids.filter (fun i => (registryGet m i).isSome) := by
  induction ids with
  | nil => rfl
  | cons i ids ih =>
    unfold getMultiple at ih ⊢
    simp only [List.map_cons, List.filterMap_cons]
    cases hg : registryGet m i with
    | none =>
      rw [List.filter_cons_of_neg (by simp [hg])]
      exact ih
    | some t =>
      rw [List.filter_cons_of_pos (by simp [hg])]
      simp only [List.map_cons]
      rw [ih, registryGet_some_id hwf hg]

theorem mem_getMultiple {m : List (String × ToolDefinition)} {ids : List String}
    {t : ToolDefinition} (hwf : RegistryWF m) (ht : t ∈ getMultiple m ids) :
    registryGet m t.id = some t := by
  unfold getMultiple at ht
  rw [List.mem_filterMap] at ht
  obtain ⟨o, ho, hot⟩ := ht
  rw [List.mem_map] at ho
  obtain ⟨i, _, hio⟩ := ho
  have hg : registryGet m i = some t := by rw [hio]; exact hot
  rw [registryGet_some_id hwf hg]
  exact hg

/-! ### Insertion-sort lemmas (model of the SQL `ORDER BY`) -/

theorem perm_insertSorted {α : Type} (le : α → α → Bool) (a : α) :
    ∀ l : List α, List.Perm (insertSorted le a l) (a :: l)
  | [] => .refl _
  | b :: l => by
    unfold insertSorted
    split
    · exact .refl _
    · exact ((perm_insertSorted le a l).cons b).trans (List.Perm.swap a b l)

theorem perm_sortBy {α : Type} (le : α → α → Bool) :
    ∀ l : List α, List.Perm (sortBy le l) l
  | [] => .refl _
  | b :: l =>
    (perm_insertSorted le b (sortBy le l)).trans ((perm_sortBy le l).cons b)

theorem pairwise_insertSorted {α : Type} {le : α → α → Bool}
    (htot : ∀ a b, le a b = true ∨ le b a = true)
    (htrans : ∀ a b c, le a b = true → le b c = true → le a c = true)
    (a : α) :
    ∀ l : List α, l.Pairwise (fun x y => le x y = true) →
      (insertSorted le a l).Pairwise (fun x y => le x y = true)
  | [], _ => by
    unfold insertSorted
    exact List.pairwise_singleton _ _
  | b :: l, h => by
    rcases List.pairwise_cons.mp h with ⟨hb, hl⟩
    unfold insertSorted
    by_cases hab : le a b = true
    · rw [if_pos hab]
      refine List.pairwise_cons.mpr ⟨?_, h⟩
      intro y hy
      rcases List.mem_cons.mp hy with rfl | hyl
      · exact hab
      · exact htrans a b y hab (hb y hyl)
    · rw [if_neg hab]
      have hba : le b a = true := (htot a b).resolve_left hab
      refine List.pairwise_cons.mpr
        ⟨?_, pairwise_insertSorted htot htrans a l hl⟩
      intro y hy
      have hy2 : y ∈ a :: l := (perm_insertSorted le a l).mem_iff.mp hy
      rcases List.mem_cons.mp hy2 with rfl | hyl
      · exact hba
      · exact hb y hyl

theorem pairwise_sortBy {α : Type} {le : α → α → Bool}
    (htot : ∀ a b, le a b = true ∨ le b a = true)
    (htrans : ∀ a b c, le a b = true → le b c = true → le a c = true) :
    ∀ l : List α, (sortBy le l).Pairwise (fun x y => le x y = true)
  | [] => .nil
  | b :: l =>
    pairwise_insertSorted htot htrans b _ (pairwise_sortBy htot htrans l)

theorem sortBy_take_drop_le {α : Type} {le : α → α → Bool}
    (htot : ∀ a b, le a b = true ∨ le b a = true)
    (htrans : ∀ a b c, le a b = true → le b c = true → le a c = true)
    (l : List α) (n : ℕ) :
    ∀ x ∈ (sortBy le l).take n, ∀ y ∈ (sortBy le l).drop n, le x y = true := by
  have hs := pairwise_sortBy htot htrans l
  rw [← List.take_append_drop n (sortBy le l)] at hs
  exact (List.pairwise_append.mp hs).2.2

/-! ### Merge monotonicity lemmas (for C6) -/

theorem mergeTools_length_ge (past inc : List ToolDefinition)
    (h : (past.map ToolDefinition.id).Nodup) :
    past.length ≤ (mergeTools past inc).length := by
  rw [mergeTools_length]
  have h1 : past.length = (past.map ToolDefinition.id).toFinset.card := by
    rw [List.toFinset_card_of_nodup h, List.length_map]
  rw [h1]
  apply Finset.card_le_card
  intro a ha
  rw [List.mem_toFinset] at ha ⊢
  rw [List.map_append, List.mem_append]
  exact Or.inl ha

theorem foldl_mergeTools_nodup (l : List (List ToolDefinition)) :
    ∀ s : List ToolDefinition, ((s.map ToolDefinition.id).Nodup) →
      (((l.foldl mergeTools s).map ToolDefinition.id).Nodup) := by
  induction l with
  | nil => intro s h; exact h
  | cons inc l ih =>
    intro s _
    rw [List.foldl_cons]
    exact ih _ (mergeTools_nodup_id s inc)

theorem stateAfter_nodup (incomings : List (List ToolDefinition)) (n : ℕ) :
    ((stateAfter incomings n).map ToolDefinition.id).Nodup :=
  foldl_mergeTools_nodup _ [] List.nodup_nil

theorem stateAfter_succ (incomings : List (List ToolDefinition)) (n : ℕ) :
    stateAfter incomings (n + 1)
      = match incomings[n]? with
        | none => stateAfter incomings n
        | some inc => mergeTools (stateAfter incomings n) inc := by
  unfold stateAfter
  rw [List.take_succ, List.foldl_append]
  cases incomings[n]? <;> rfl

/-! ### Lemmas about `handlePrompt` and the interactive loop -/

theorem handlePrompt_error_iff {cfg : SearchConfig} {frt : FindRelevantFn}
    {reg : List (String × ToolDefinition)} {prompt : String}
    {past : List ToolDefinition} {e : EmbeddingError} :
    handlePrompt cfg frt reg prompt past = .error e ↔
      frt prompt cfg.defaultTopK cfg.defaultSimilarityThreshold = .error e := by
  unfold handlePrompt
  cases frt prompt cfg.defaultTopK cfg.defaultSimilarityThreshold <;>
    simp

theorem handlePrompt_ok_of_frt_ok {cfg : SearchConfig} {frt : FindRelevantFn}
    {reg : List (String × ToolDefinition)} {prompt : String}
    {past : List ToolDefinition}
    (hok : ∀ p k th, (frt p k th).isOk = true) :
    ∃ merged, handlePrompt cfg frt reg prompt past = .ok merged := by
  have h := hok prompt cfg.defaultTopK cfg.defaultSimilarityThreshold
  unfold handlePrompt
  cases hf : frt prompt cfg.defaultTopK cfg.defaultSimilarityThreshold with
  | error e => rw [hf] at h; simp [Except.isOk, Except.toBool] at h
  | ok tools => exact ⟨_, rfl⟩

theorem handled_afterTurn (line : String) (r : LoopResult) :
    (r.afterTurn line).handled = line :: r.handled := by
  cases r <;> rfl

theorem isGraceful_afterTurn (line : String) (r : LoopResult) :
    (r.afterTurn line).isGraceful = r.isGraceful := by
  cases r <;> rfl

/-! ### Lemmas about the database upsert (src/database.ts) -/

theorem registerTool_embed_ok {embed : EmbedFn} {now : ℕ} {t : ToolDefinition}
    {table db1 : List DbRow}
    (h : registerToolInDatabase embed now t table = .ok db1) :
    ∃ emb, embed (searchableText t) = .ok emb := by
  unfold registerToolInDatabase at h
  cases he : embed (searchableText t) with
  | error e => rw [he] at h; cases h
  | ok emb => exact ⟨emb, rfl⟩

theorem registerTool_eq {embed : EmbedFn} {now : ℕ} {t : ToolDefinition}
    {table db1 : List DbRow} {emb : List ℚ}
    (he : embed (searchableText t) = .ok emb)
    (h : registerToolInDatabase embed now t table = .ok db1) :
    db1 = if table.any (fun r => r.toolId = t.id) then
        table.map (fun r =>
          if r.toolId = t.id then
            { toolId := r.toolId, toolName := t.name,
              description := t.description, keywords := t.keywords,
              parameters := t.parameters,
              toolDefinition := ⟨t.id, t.name, t.description, t.keywords⟩,
              embedding := emb, createdAt := r.createdAt }
          else r)
      else
        table ++ [⟨t.id, t.name, t.description, t.keywords, t.parameters,
          ⟨t.id, t.name, t.description, t.keywords⟩, emb, now⟩] := by
  unfold registerToolInDatabase at h
  rw [he] at h
  exact (Except.ok.inj h).symm

theorem registerTool_keys {embed : EmbedFn} {now : ℕ} {t : ToolDefinition}
    {table db1 : List DbRow} {emb : List ℚ}
    (he : embed (searchableText t) = .ok emb)
    (h : registerToolInDatabase embed now t table = .ok db1) :
    db1.map DbRow.toolId = if table.any (fun r => r.toolId = t.id)
      then table.map DbRow.toolId else table.map DbRow.toolId ++ [t.id] := by
  rw [registerTool_eq he h]
  split
  · rw [List.map_map]
    refine List.map_congr_left fun r _ => ?_
    by_cases hrt : r.toolId = t.id <;> simp [Function.comp, hrt]
  · simp

theorem registerTool_keys_nodup {embed : EmbedFn} {now : ℕ}
    {t : ToolDefinition} {table db1 : List DbRow} {emb : List ℚ}
    (hkeys : (table.map DbRow.toolId).Nodup)
    (he : embed (searchableText t) = .ok emb)
    (h : registerToolInDatabase embed now t table = .ok db1) :
    (db1.map DbRow.toolId).Nodup := by
  rw [registerTool_keys he h]
  by_cases hany : (table.any fun r => r.toolId = t.id) = true
  · rwa [if_pos hany]
  · rw [if_neg hany]
    have hnot : t.id ∉ table.map DbRow.toolId := by
      intro hmem
      rw [List.mem_map] at hmem
      obtain ⟨r, hr, hri⟩ := hmem
      exact hany (List.any_eq_true.mpr ⟨r, hr, by simpa using hri⟩)
    simp [List.nodup_append, hkeys, hnot]

theorem registerTool_mem_key {embed : EmbedFn} {now : ℕ} {t : ToolDefinition}
    {table db1 : List DbRow} {emb : List ℚ}
    (he : embed (searchableText t) = .ok emb)
    (h : registerToolInDatabase embed now t table = .ok db1) :
    t.id ∈ db1.map DbRow.toolId := by
  rw [registerTool_keys he h]
  by_cases hany : (table.any fun r => r.toolId = t.id) = true
  · rw [if_pos hany]
    rw [List.any_eq_true] at hany
    obtain ⟨r, hr, hri⟩ := hany
    exact List.mem_map.mpr ⟨r, hr, by simpa using hri⟩
  · rw [if_neg hany]
    simp

theorem registerTool_fields {embed : EmbedFn} {now : ℕ} {t : ToolDefinition}
    {table db1 : List DbRow} {emb : List ℚ}
    (he : embed (searchableText t) = .ok emb)
    (h : registerToolInDatabase embed now t table = .ok db1) :
    ∀ r ∈ db1, r.toolId = t.id →
      r.toolName = t.name ∧ r.description = t.description
      ∧ r.keywords = t.keywords ∧ r.parameters = t.parameters
      ∧ r.toolDefinition = ⟨t.id, t.name, t.description, t.keywords⟩
      ∧ r.embedding = emb := by
  intro r hr hrt
  rw [registerTool_eq he h] at hr
  by_cases hany : (table.any fun r => r.toolId = t.id) = true
  · rw [if_pos hany] at hr
    rw [List.mem_map] at hr
    obtain ⟨r0, _, hr0⟩ := hr
    by_cases hr0t : r0.toolId = t.id
    · rw [if_pos hr0t] at hr0
      rw [← hr0]
      exact ⟨rfl, rfl, rfl, rfl, rfl, rfl⟩
    · rw [if_neg hr0t] at hr0
      rw [← hr0] at hrt
      exact absurd hrt hr0t
  · rw [if_neg hany] at hr
    rw [List.mem_append] at hr
    rcases hr with hr | hr
    · exact absurd (List.any_eq_true.mpr ⟨r, hr, by simpa using hrt⟩) hany
    · rw [List.mem_singleton] at hr
      rw [hr]
      exact ⟨rfl, rfl, rfl, rfl, rfl, rfl⟩

theorem registerTool_idem {embed : EmbedFn} {now : ℕ} {t : ToolDefinition}
    {table db1 : List DbRow} {emb : List ℚ}
    (he : embed (searchableText t) = .ok emb)
    (h : registerToolInDatabase embed now t table = .ok db1) (now2 : ℕ) :
    registerToolInDatabase embed now2 t db1 = .ok db1 := by
  have hmem := registerTool_mem_key he h
  have hfields := registerTool_fields he h
  have hstep : registerToolInDatabase embed now2 t db1
      = .ok (if db1.any (fun r => r.toolId = t.id) then
          db1.map (fun r =>
            if r.toolId = t.id then
              { toolId := r.toolId, toolName := t.name,
                description := t.description, keywords := t.keywords,
                parameters := t.parameters,
                toolDefinition := ⟨t.id, t.name, t.description, t.keywords⟩,
                embedding := emb, createdAt := r.createdAt }
            else r)
        else
          db1 ++ [⟨t.id, t.name, t.description, t.keywords, t.parameters,
            ⟨t.id, t.name, t.description, t.keywords⟩, emb, now2⟩]) := by
    unfold registerToolInDatabase
    rw [he]
  rw [hstep]
  have hany : (db1.any fun r => r.toolId = t.id) = true := by
    rw [List.mem_map] at hmem
    obtain ⟨r, hr, hri⟩ := hmem
    exact List.any_eq_true.mpr ⟨r, hr, by simpa using hri⟩
  rw [if_pos hany]
  have hmap : (db1.map (fun r =>
      if r.toolId = t.id then
        { toolId := r.toolId, toolName := t.name,
          description := t.description, keywords := t.keywords,
          parameters := t.parameters,
          toolDefinition := ⟨t.id, t.name, t.description, t.keywords⟩,
          embedding := emb, createdAt := r.createdAt }
      else r)) = db1 := by
    have hid : (db1.map fun r => r) = db1 := db1.map_id
    conv_rhs => rw [← hid]
    refine List.map_congr_left fun r hr => ?_
    by_cases hrt : r.toolId = t.id
    · rw [if_pos hrt]
      obtain ⟨h1, h2, h3, h4, h5, h6⟩ := hfields r hr hrt
      obtain ⟨rid, rname, rdesc, rkw, rpar, rdef, remb, rcre⟩ := r
      simp only at h1 h2 h3 h4 h5 h6 hrt
      simp [h1, h2, h3, h4, h5, h6, hrt]
    · rw [if_neg hrt]
  rw [hmap]

/-- One record per tool id when the keys are distinct: the rows matching a
given id number at most one. -/
theorem filter_key_length_le_one (l : List DbRow) (i : String)
    (hn : (l.map DbRow.toolId).Nodup) :
    (l.filter (fun r => r.toolId = i)).length ≤ 1 := by
  induction l with
  | nil => simp
  | cons r l ih =>
    simp only [List.map_cons, List.nodup_cons] at hn
    rcases hn with ⟨hni, hnl⟩
    by_cases hri : r.toolId = i
    · rw [List.filter_cons_of_pos (by simpa using hri)]
      have hnil : l.filter (fun r => r.toolId = i) = [] := by
        rw [List.filter_eq_nil_iff]
        intro x hx hxi
        rw [decide_eq_true_eq] at hxi
        exact hni (hri ▸ hxi ▸ List.mem_map_of_mem DbRow.toolId hx)
      rw [hnil]
      simp
    · rw [List.filter_cons_of_neg (by simpa using hri)]
      exact ih hnl

theorem filter_key_length_eq_one (l : List DbRow) (i : String)
    (hn : (l.map DbRow.toolId).Nodup) (hm : i ∈ l.map DbRow.toolId) :
    (l.filter (fun r => r.toolId = i)).length = 1 := by
  rcases List.mem_map.mp hm with ⟨r, hr, hri⟩
  have hle := filter_key_length_le_one l i hn
  have hmemf : r ∈ l.filter (fun r => r.toolId = i) :=
    List.mem_filter.mpr ⟨hr, by simpa using hri⟩
  have hpos : 0 < (l.filter (fun r => r.toolId = i)).length :=
    List.length_pos.mpr (fun hnil => by rw [hnil] at hmemf; cases hmemf)
  omega

/-- The startup registration of a whole tool list
(`ToolService.setupAllTools`, src/toolService.ts): register each tool in
order, aborting on the first failure. -/
def setupAllTools (embed : EmbedFn) :
    List (ℕ × ToolDefinition) → List DbRow →
      Except EmbeddingError (List DbRow)
  | [], db => .ok db
  | (now, t) :: rest, db =>
    match registerToolInDatabase embed now t db with
    | .error e => .error e
    | .ok db2 => setupAllTools embed rest db2

theorem setupAllTools_keys_nodup (embed : EmbedFn) :
    ∀ (regs : List (ℕ × ToolDefinition)) (db db2 : List DbRow),
      (db.map DbRow.toolId).Nodup →
      setupAllTools embed regs db = .ok db2 →
      (db2.map DbRow.toolId).Nodup := by
  intro regs
  induction regs with
  | nil =>
    intro db db2 hn h
    cases h
    exact hn
  | cons p rest ih =>
    intro db db2 hn h
    obtain ⟨now, t⟩ := p
    unfold setupAllTools at h
    cases hreg : registerToolInDatabase embed now t db with
    | error e => rw [hreg] at h; cases h
    | ok dbn =>
      rw [hreg] at h
      obtain ⟨emb, he⟩ := registerTool_embed_ok hreg
      exact ih dbn db2 (registerTool_keys_nodup hn he hreg) h

/-! ### Lemmas about `findRelevantTools` -/

theorem findRelevantTools_ok {embed : EmbedFn} {dist : DistFn}
    {table : List DbRow} {userPrompt : String} {topK : ℕ} {threshold : ℚ}
    {q : List ℚ} {result : List (String × ℚ)}
    (hq : embed userPrompt = .ok q)
    (hres : DatabaseTs.findRelevantTools embed dist table userPrompt topK
      threshold = .ok result) :
    result = ((sortBy
        (fun a b => decide (dist a.embedding q ≤ dist b.embedding q))
        (table.filter (fun r => threshold < 1 - dist r.embedding q))).take
          topK).map
        (fun r => (r.toolId, 1 - dist r.embedding q)) := by
  have hstep : DatabaseTs.findRelevantTools embed dist table userPrompt topK
      threshold
      = .ok (((sortBy
          (fun a b => decide (dist a.embedding q ≤ dist b.embedding q))
          (table.filter (fun r => threshold < 1 - dist r.embedding q))).take
            topK).map
          (fun r => (r.toolId, 1 - dist r.embedding q))) := by
    unfold DatabaseTs.findRelevantTools
    rw [hq]
  rw [hstep] at hres
  exact (Except.ok.inj hres).symm

theorem distLe_total (dist : DistFn) (q : List ℚ) :
    ∀ a b : DbRow,
      decide (dist a.embedding q ≤ dist b.embedding q) = true
      ∨ decide (dist b.embedding q ≤ dist a.embedding q) = true := by
  intro a b
  rcases le_total (dist a.embedding q) (dist b.embedding q) with h | h
  · exact Or.inl (decide_eq_true h)
  · exact Or.inr (decide_eq_true h)

theorem distLe_trans (dist : DistFn) (q : List ℚ) :
    ∀ a b c : DbRow,
      decide (dist a.embedding q ≤ dist b.embedding q) = true →
      decide (dist b.embedding q ≤ dist c.embedding q) = true →
      decide (dist a.embedding q ≤ dist c.embedding q) = true := by
  intro a b c hab hbc
  exact decide_eq_true (le_trans (of_decide_eq_true hab) (of_decide_eq_true hbc))

/-- C2: for every query vector, threshold and stored set of embedding
records, the similarity query returns only entries whose similarity strictly
exceeds the threshold; a row whose similarity equals the threshold exactly
contributes no entry to the result. -/
theorem query_threshold_strict (embed : EmbedFn) (dist : DistFn)
    (table : List DbRow) (userPrompt : String) (topK : ℕ) (threshold : ℚ)
    (q : List ℚ) (result : List (String × ℚ))
    (hkeys : (table.map DbRow.toolId).Nodup)
    (hq : embed userPrompt = .ok q)
    (hres : DatabaseTs.findRelevantTools embed dist table userPrompt topK
      threshold = .ok result) :
    (∀ p ∈ result, threshold < p.2)
  ∧ ∀ r ∈ table, 1 - dist r.embedding q = threshold →
      ∀ s : ℚ, (r.toolId, s) ∉ result := by
  have hr := findRelevantTools_ok hq hres
  subst hr
  constructor
  · intro p hp
    rw [List.mem_map] at hp
    obtain ⟨x, hx, rfl⟩ := hp
    have hx2 := List.mem_of_mem_take hx
    have hx3 := ((perm_sortBy _ _).mem_iff).mp hx2
    have hx4 := List.mem_filter.mp hx3
    simpa using hx4.2
  · intro r hrtab hthr s hmem
    rw [List.mem_map] at hmem
    obtain ⟨x, hx, hxeq⟩ := hmem
    have hxid : x.toolId = r.toolId := congrArg Prod.fst hxeq
    have hx2 := List.mem_of_mem_take hx
    have hx3 := ((perm_sortBy _ _).mem_iff).mp hx2
    have hx4 := List.mem_filter.mp hx3
    have hxr : x = r := List.inj_on_of_nodup_map hkeys hx4.1 hrtab hxid
    have hlt : threshold < 1 - dist x.embedding q := by simpa using hx4.2
    rw [hxr, hthr] at hlt
    exact lt_irrefl _ hlt

/-- C3: the similarity query returns at most `topK` entries, ordered by
similarity descending; they are of highest similarity among the rows passing
the threshold, and when at least `topK` rows pass, exactly `topK` entries are
returned. -/
theorem query_topK_cap (embed : EmbedFn) (dist : DistFn) (table : List DbRow)
    (userPrompt : String) (topK : ℕ) (threshold : ℚ) (q : List ℚ)
    (result : List (String × ℚ))
    (hq : embed userPrompt = .ok q)
    (hres : DatabaseTs.findRelevantTools embed dist table userPrompt topK
      threshold = .ok result) :
    result.length ≤ topK
  ∧ result.Pairwise (fun p1 p2 => p2.2 ≤ p1.2)
  ∧ (∀ r ∈ table, threshold < 1 - dist r.embedding q →
      (r.toolId, 1 - dist r.embedding q) ∉ result →
      ∀ p ∈ result, 1 - dist r.embedding q ≤ p.2)
  ∧ (topK ≤ (table.filter
        (fun r => threshold < 1 - dist r.embedding q)).length →
      result.length = topK) := by
  have hr := findRelevantTools_ok hq hres
  subst hr
  refine ⟨?_, ?_, ?_, ?_⟩
  · rw [List.length_map]
    exact List.length_take_le _ _
  · rw [List.pairwise_map]
    have hp := pairwise_sortBy (distLe_total dist q) (distLe_trans dist q)
      (table.filter (fun r => threshold < 1 - dist r.embedding q))
    have hp2 := List.Pairwise.sublist (List.take_sublist topK _) hp
    refine hp2.imp ?_
    intro a b hab
    have h := of_decide_eq_true hab
    simpa using sub_le_sub_left h 1
  · intro r hrtab hpass hnot p hp
    rw [List.mem_map] at hp
    obtain ⟨x, hx, rfl⟩ := hp
    have hrfilter : r ∈ table.filter
        (fun r => threshold < 1 - dist r.embedding q) :=
      List.mem_filter.mpr ⟨hrtab, by simpa using hpass⟩
    have hrsort := ((perm_sortBy
      (fun a b => decide (dist a.embedding q ≤ dist b.embedding q))
      _).mem_iff).mpr hrfilter
    rw [← List.take_append_drop topK (sortBy _ _)] at hrsort
    rcases List.mem_append.mp hrsort with hcase | hcase
    · exact absurd (List.mem_map.mpr ⟨r, hcase, rfl⟩) hnot
    · have hle := sortBy_take_drop_le (distLe_total dist q)
        (distLe_trans dist q) _ topK x hx r hcase
      have h := of_decide_eq_true hle
      simpa using sub_le_sub_left h 1
  · intro hge
    rw [List.length_map, List.length_take,
      (perm_sortBy _ _).length_eq]
    omega

/-- C9: the tool-selection function duplicated in the legacy entry point
(src/main.ts) and the one extracted into the database module
(src/database.ts) are equivalent: same embedding function, same stored
records, same prompt, topK and threshold give equal results. -/
theorem findRelevantTools_duplicate_equiv (embed : EmbedFn) (dist : DistFn)
    (table : List DbRow) (userPrompt : String) (topK : ℕ) (threshold : ℚ) :
    MainTs.findRelevantTools embed dist table userPrompt topK threshold
      = DatabaseTs.findRelevantTools embed dist table userPrompt topK
          threshold := rfl

/-- C8: on any input sequence with no per-turn failure, the interactive loop
hands to `handlePrompt` exactly the non-blank lines strictly before the first
line trimming (case-insensitively) to `exit`, in order — blank lines are
skipped without a turn — and it shuts down gracefully exactly when such an
`exit` line occurs. -/
theorem cli_loop_dispatch (cfg : SearchConfig) (frt : FindRelevantFn)
    (reg : List (String × ToolDefinition)) (lines : List String)
    (past : List ToolDefinition)
    (hok : ∀ p k th, (frt p k th).isOk = true) :
    ((mainLoop cfg frt reg lines past).handled
      = (lines.takeWhile (fun l => !(l.trim.toLower == "exit"))).filter
          (fun l => !(l.trim == "")))
  ∧ ((mainLoop cfg frt reg lines past).isGraceful
      = lines.any (fun l => l.trim.toLower == "exit")) := by
  induction lines generalizing past with
  | nil =>
    constructor
    · rfl
    · rfl
  | cons line rest ih =>
    by_cases hexit : line.trim.toLower = "exit"
    · simp only [mainLoop]
      rw [if_pos hexit]
      constructor
      · simp [LoopResult.handled, List.takeWhile_cons, hexit]
      · simp [LoopResult.isGraceful, List.any_cons, hexit]
    · by_cases hblank : line.trim = ""
      · simp only [mainLoop]
        rw [if_neg hexit, if_neg (fun hc => hc hblank)]
        constructor
        · rw [List.takeWhile_cons_of_pos (by simp [hexit]),
            List.filter_cons_of_neg (by simp [hblank])]
          exact (ih past).1
        · rw [List.any_cons, show (line.trim.toLower == "exit") = false by
            simp [hexit], Bool.false_or]
          exact (ih past).2
      · obtain ⟨merged, hmerged⟩ :=
          @handlePrompt_ok_of_frt_ok cfg frt reg line past hok
        simp only [mainLoop]
        rw [if_neg hexit, if_pos hblank, hmerged]
        constructor
        · rw [handled_afterTurn,
            List.takeWhile_cons_of_pos (by simp [hexit]),
            List.filter_cons_of_pos (by simp [hblank])]
          rw [(ih merged).1]
        · rw [isGraceful_afterTurn, List.any_cons,
            show (line.trim.toLower == "exit") = false by simp [hexit],
            Bool.false_or]
          exact (ih merged).2

theorem handlePrompt_ok_eq {cfg : SearchConfig} {frt : FindRelevantFn}
    {reg : List (String × ToolDefinition)} {prompt : String}
    {past : List ToolDefinition} {tools : List (String × ℚ)}
    (hf : frt prompt cfg.defaultTopK cfg.defaultSimilarityThreshold
      = .ok tools) :
    handlePrompt cfg frt reg prompt past
      = .ok (mergeTools past (getMultiple reg (tools.map Prod.fst))) := by
  unfold handlePrompt
  rw [hf]

/-- C1: the per-turn merge walks `previous ++ incoming`, appending each id at
its first-appearance position and replacing the stored value in place on a
repeated id; the result has no duplicate ids, its length is the number of
distinct ids across both inputs, and merging `[A, B]` with `[B', C]` (where
`B'` shares `B`'s id) yields `[A, B', C]`. -/
theorem mergeAndAccumulate_spec :
    (∀ previous incoming : List ToolDefinition,
        mergeTools previous incoming = mergeWalkSpec previous incoming
      ∧ ((mergeTools previous incoming).map ToolDefinition.id).Nodup
      ∧ (mergeTools previous incoming).length
          = ((previous ++ incoming).map ToolDefinition.id).toFinset.card)
  ∧ ∀ A B B' C : ToolDefinition, B'.id = B.id →
      A.id ≠ B.id → A.id ≠ C.id → B.id ≠ C.id →
      mergeTools [A, B] [B', C] = [A, B', C] := by
  constructor
  · intro previous incoming
    exact ⟨mergeTools_eq_walk previous incoming,
      mergeTools_nodup_id previous incoming,
      mergeTools_length previous incoming⟩
  · intro A B B' C hB hAB hAC hBC
    rw [mergeTools_eq_walk]
    unfold mergeWalkSpec
    simp only [List.cons_append, List.nil_append, List.foldl_cons,
      List.foldl_nil]
    simp [walkUpsert, hB, hAB, hAC, hBC]

/-- C5: `getMultiple` returns the registered descriptors in the input order,
silently omitting every id with no registered entry: the output ids are
exactly the registered ids of the input, each returned descriptor is the
registry's entry for its id, and no unregistered id is represented. -/
theorem getMultiple_order_omission (m : List (String × ToolDefinition))
    (ids : List String) (hwf : RegistryWF m) :
    ((getMultiple m ids).map ToolDefinition.id
        = ids.filter (fun i => (registryGet m i).isSome))
  ∧ (∀ t ∈ getMultiple m ids, registryGet m t.id = some t)
  ∧ (∀ i ∈ ids, registryGet m i = none →
      ∀ t ∈ getMultiple m ids, t.id ≠ i) := by
  refine ⟨getMultiple_map_id m ids hwf,
    fun t ht => mem_getMultiple hwf ht, ?_⟩
  intro i _ hnone t ht hti
  have hg := mem_getMultiple hwf ht
  rw [hti, hnone] at hg
  cases hg

/-- C6: on every successful turn the session's tool count never shrinks: the
merge keeps every previous id, the new state again has distinct ids, and
along any sequence of successful turns the length of `activeTools` is
non-decreasing. -/
theorem session_growth_monotone :
    (∀ (cfg : SearchConfig) (frt : FindRelevantFn)
        (reg : List (String × ToolDefinition)) (prompt : String)
        (past merged : List ToolDefinition),
        handlePrompt cfg frt reg prompt past = .ok merged →
        (past.map ToolDefinition.id).Nodup →
          past.length ≤ merged.length
        ∧ (merged.map ToolDefinition.id).Nodup
        ∧ ∀ i ∈ past.map ToolDefinition.id, i ∈ merged.map ToolDefinition.id)
  ∧ ∀ (incomings : List (List ToolDefinition)) (n : ℕ),
      (stateAfter incomings n).length ≤ (stateAfter incomings (n + 1)).length
    := by
  constructor
  · intro cfg frt reg prompt past merged hm hnodup
    unfold handlePrompt at hm
    cases hf : frt prompt cfg.defaultTopK cfg.defaultSimilarityThreshold with
    | error e => rw [hf] at hm; cases hm
    | ok tools =>
      have hme := @handlePrompt_ok_eq cfg frt reg prompt past tools hf
      unfold handlePrompt at hme
      rw [hme] at hm
      have hmerged := (Except.ok.inj hm).symm
      subst hmerged
      refine ⟨mergeTools_length_ge _ _ hnodup, mergeTools_nodup_id _ _,
        fun i hi => mem_mergeTools_id.mpr ?_⟩
      rw [List.map_append, List.mem_append]
      exact Or.inl hi
  · intro incomings n
    rw [stateAfter_succ]
    cases h : incomings[n]? with
    | none => exact le_refl _
    | some inc => exact mergeTools_length_ge _ _ (stateAfter_nodup incomings n)

/-- C10: `getMultiple` does not deduplicate its input: a registered id
occurring several times contributes its descriptor once per occurrence, and
deduplication happens only in the per-turn merge. -/
theorem getMultiple_no_dedup (m : List (String × ToolDefinition))
    (ids : List String) (hwf : RegistryWF m) :
    (∀ i : String, (registryGet m i).isSome = true →
      ((getMultiple m ids).map ToolDefinition.id).count i = ids.count i)
  ∧ ∀ past : List ToolDefinition,
      ((mergeTools past (getMultiple m ids)).map ToolDefinition.id).Nodup := by
  constructor
  · intro i hi
    rw [getMultiple_map_id m ids hwf]
    exact List.count_filter (by simpa using hi)
  · intro past
    exact mergeTools_nodup_id _ _

/-! ### Concrete string evaluations (Lean's `String.trim` is defined through
well-founded recursion and does not reduce definitionally) -/

theorem trim_q : "q".trim = "q" := by
  have h1 : Substring.takeWhileAux "q" ⟨1⟩ Char.isWhitespace ⟨0⟩ = ⟨0⟩ := by
    unfold Substring.takeWhileAux
    rw [show ("q".get ⟨0⟩).isWhitespace = false from by decide]
    simp
  have h2 : Substring.takeRightWhileAux "q" ⟨0⟩ Char.isWhitespace ⟨1⟩
      = ⟨1⟩ := by
    unfold Substring.takeRightWhileAux
    rw [dif_pos (show (⟨0⟩ : String.Pos) < ⟨1⟩ from by decide)]
    show (if (!("q".get ("q".prev ⟨1⟩)).isWhitespace) = true
        then (⟨1⟩ : String.Pos)
        else Substring.takeRightWhileAux "q" ⟨0⟩ Char.isWhitespace
          ("q".prev ⟨1⟩)) = ⟨1⟩
    rw [show ("q".get ("q".prev ⟨1⟩)).isWhitespace = false from by decide]
    simp
  show Substring.toString ⟨"q",
    Substring.takeWhileAux "q" ⟨1⟩ Char.isWhitespace ⟨0⟩,
    Substring.takeRightWhileAux "q"
      (Substring.takeWhileAux "q" ⟨1⟩ Char.isWhitespace ⟨0⟩)
      Char.isWhitespace ⟨1⟩⟩ = "q"
  rw [h1, h2]
  decide

theorem toLower_q : "q".toLower = "q" := by
  rw [String.toLower, String.map_eq]
  decide

/-- C4 (amended): a turn whose selection step fails (embedding or query
error, rethrown by `handlePrompt` before the state update) leaves the
session's `activeTools` exactly as before the turn, but the loop does not
process the next line: the rethrown error reaches the catch outside the
`while`, so the loop ends in the crash outcome with the rest of the input
unprocessed. -/
theorem failed_turn_preserves_state (cfg : SearchConfig)
    (frt : FindRelevantFn) (reg : List (String × ToolDefinition))
    (line : String) (rest : List String) (past : List ToolDefinition)
    (e : EmbeddingError)
    (hexit : line.trim.toLower ≠ "exit") (hblank : line.trim ≠ "")
    (herr : handlePrompt cfg frt reg line past = .error e) :
    mainLoop cfg frt reg (line :: rest) past = .crashed [line] past := by
  simp only [mainLoop]
  rw [if_neg hexit, if_pos hblank, herr]

/-- C4 counterexample: with a selection step that fails on the prompt `q`,
the loop does not remain usable — it ends in the crash outcome with the
original (empty) tool state and never processes the following line. -/
theorem failed_turn_cex :
    mainLoop cfg0 frtFail [] ["q", "next question"] []
      = .crashed ["q"] []
  ∧ "next question"
      ∉ (mainLoop cfg0 frtFail [] ["q", "next question"] []).handled := by
  have h1 : mainLoop cfg0 frtFail [] ["q", "next question"] []
      = .crashed ["q"] [] := by
    simp only [mainLoop]
    rw [if_neg (show ¬ "q".trim.toLower = "exit" by
        rw [trim_q, toLower_q]; decide),
      if_pos (show "q".trim ≠ "" by rw [trim_q]; decide),
      show handlePrompt cfg0 frtFail [] "q" [] = .error .emptyBatch from rfl]
  refine ⟨h1, ?_⟩
  rw [h1]
  decide

/-- C7: the database upsert is idempotent per tool id: one registration
leaves distinct keys and exactly one record for the tool's id carrying the
generated embedding, an identical re-registration returns the very same
table, and after any successful startup registration sequence there is at
most one record per tool id. -/
theorem upsert_idempotent (embed : EmbedFn) (t : ToolDefinition)
    (now now2 : ℕ) (db db1 : List DbRow)
    (hkeys : (db.map DbRow.toolId).Nodup)
    (h1 : registerToolInDatabase embed now t db = .ok db1) :
    (db1.map DbRow.toolId).Nodup
  ∧ (db1.filter (fun r => r.toolId = t.id)).length = 1
  ∧ registerToolInDatabase embed now2 t db1 = .ok db1
  ∧ (∃ emb, embed (searchableText t) = .ok emb
      ∧ ∀ r ∈ db1, r.toolId = t.id → r.embedding = emb)
  ∧ ∀ (regs : List (ℕ × ToolDefinition)) (db2 : List DbRow),
      setupAllTools embed regs [] = .ok db2 →
      ∀ i : String, (db2.filter (fun r => r.toolId = i)).length ≤ 1 := by
  obtain ⟨emb, he⟩ := registerTool_embed_ok h1
  refine ⟨registerTool_keys_nodup hkeys he h1,
    filter_key_length_eq_one db1 t.id (registerTool_keys_nodup hkeys he h1)
      (registerTool_mem_key he h1),
    registerTool_idem he h1 now2,
    ⟨emb, he, fun r hr hrt =>
      (registerTool_fields he h1 r hr hrt).2.2.2.2.2⟩,
    ?_⟩
  intro regs db2 hsetup i
  exact filter_key_length_le_one db2 i
    (setupAllTools_keys_nodup embed regs [] db2 (by simp) hsetup)

/-! ### Concrete instantiations of the theorems -/

/-- The three entries the similarity query returns over `tableW` with
threshold 1/2 and topK 3. -/
def resW : List (String × ℚ) :=
  [("t1", 9/10), ("t2", 8/10), ("t3", 7/10)]

/-- The two entries returned over `tableW` with threshold 1/2 and topK 2. -/
def resW2 : List (String × ℚ) :=
  [("t1", 9/10), ("t2", 8/10)]

/-- A one-row table as written by registering `toolA` at time 0 with a
constant embedding provider. -/
def dbRowA : DbRow :=
  ⟨"a", "Tool A", "Does A things", ["alpha"], "schemaA",
   ⟨"a", "Tool A", "Does A things", ["alpha"]⟩, [1], 0⟩

/-- An embedding provider returning the constant vector `[1]`. -/
def embedOne : EmbedFn := fun _ => .ok [1]

/-- Witness for C1: merging `[toolA, toolB]` with `[toolB2, toolC]` (where
`toolB2` shares `toolB`'s id with different content) yields
`[toolA, toolB2, toolC]`. -/
theorem mergeAndAccumulate_spec_witness :
    mergeTools [toolA, toolB] [toolB2, toolC] = [toolA, toolB2, toolC] :=
  mergeAndAccumulate_spec.2 toolA toolB toolB2 toolC rfl
    (by decide) (by decide) (by decide)

/-- Witness for C2 at `tableW`: every returned similarity strictly exceeds
the threshold 1/2, and the row `t4` sitting exactly at the threshold is
excluded. -/
theorem query_threshold_strict_witness :
    ((1:ℚ)/2 < ((9:ℚ)/10)) ∧ ("t4", (1:ℚ)/2) ∉ resW := by
  have h := query_threshold_strict embedW distW tableW "weather" 3 (1/2) []
    resW (by decide) rfl
    (by norm_num [DatabaseTs.findRelevantTools, embedW, distW, tableW, rowW,
      sortBy, insertSorted, List.filter, resW])
  refine ⟨?_, ?_⟩
  · have := h.1 ("t1", 9/10) (by rw [resW]; exact List.mem_cons_self _ _)
    simpa using this
  · exact h.2 (rowW "t4" (1/2)) (by simp [tableW])
      (by norm_num [distW, rowW]) (1/2)

/-- Witness for C3 at `tableW` with topK 2: exactly two entries come back
(three rows pass the threshold), and the returned similarities dominate the
dropped row `t3`. -/
theorem query_topK_cap_witness :
    resW2.length ≤ 2 ∧ resW2.length = 2 ∧ ((7:ℚ)/10 ≤ (8:ℚ)/10) := by
  have h := query_topK_cap embedW distW tableW "weather" 2 (1/2) [] resW2
    rfl
    (by norm_num [DatabaseTs.findRelevantTools, embedW, distW, tableW, rowW,
      sortBy, insertSorted, List.filter, resW2])
  refine ⟨h.1, ?_, ?_⟩
  · refine h.2.2.2 ?_
    norm_num [tableW, rowW, distW, List.filter]
  · have h3 := h.2.2.1 (rowW "t3" (3/10)) (by simp [tableW])
      (by norm_num [distW, rowW])
      (by simp [resW2, rowW])
      (("t2", 8/10)) (by rw [resW2]; simp)
    have h4 : (1:ℚ) - distW (rowW "t3" (3/10)).embedding [] = 7/10 := by
      norm_num [distW, rowW]
    rw [h4] at h3
    simpa using h3

/-- Witness for C4 (amended claim): the failing turn leaves the previous
tool state `[toolA]` untouched and the loop ends in the crash outcome. -/
theorem failed_turn_preserves_state_witness :
    mainLoop cfg0 frtFail [] ["q"] [toolA] = .crashed ["q"] [toolA] :=
  failed_turn_preserves_state cfg0 frtFail [] "q" [] [toolA] .emptyBatch
    (by rw [trim_q, toLower_q]; decide) (by rw [trim_q]; decide) rfl

/-- Witness for C5: with only `a` and `b` registered,
`getMultiple ["a", "missing", "b"]` returns `[toolA, toolB]`, with the
output ids being exactly the registered input ids in order. -/
theorem getMultiple_order_omission_witness :
    ((getMultiple regW ["a", "missing", "b"]).map ToolDefinition.id
      = (["a", "missing", "b"]).filter
          (fun i => (registryGet regW i).isSome))
  ∧ getMultiple regW ["a", "missing", "b"] = [toolA, toolB] := by
  have h := getMultiple_order_omission regW ["a", "missing", "b"]
    (by unfold RegistryWF; decide)
  exact ⟨h.1, by decide⟩

/-- Witness for C6: a successful turn grows the session from no tools to
`[toolA]`. -/
theorem session_growth_monotone_witness :
    ([] : List ToolDefinition).length ≤ [toolA].length
  ∧ (([toolA].map ToolDefinition.id).Nodup) := by
  have h := session_growth_monotone.1 cfg0 frtA regW "hello" [] [toolA]
    rfl (by decide)
  exact ⟨h.1, h.2.1⟩

/-- Witness for C7: registering `toolA` into the empty table gives the
single row `dbRowA`; registering again at a later time returns the very
same table. -/
theorem upsert_idempotent_witness :
    (([dbRowA].map DbRow.toolId).Nodup)
  ∧ ([dbRowA].filter (fun r => r.toolId = toolA.id)).length = 1
  ∧ registerToolInDatabase embedOne 7 toolA [dbRowA] = .ok [dbRowA] := by
  have h := upsert_idempotent embedOne toolA 0 7 [] [dbRowA]
    (by decide) rfl
  exact ⟨h.1, h.2.1, h.2.2.1⟩

/-- Witness for C8: on the input `["", "  hi ", "EXIT", "later"]` the loop
handles exactly the non-blank pre-exit lines and shuts down gracefully. -/
theorem cli_loop_dispatch_witness :
    ((mainLoop cfg0 frtOkW [] ["", "  hi ", "EXIT", "later"] []).handled
      = ((["", "  hi ", "EXIT", "later"]).takeWhile
          (fun l => !(l.trim.toLower == "exit"))).filter
          (fun l => !(l.trim == "")))
  ∧ ((mainLoop cfg0 frtOkW [] ["", "  hi ", "EXIT", "later"] []).isGraceful
      = (["", "  hi ", "EXIT", "later"]).any
          (fun l => l.trim.toLower == "exit")) :=
  cli_loop_dispatch cfg0 frtOkW [] ["", "  hi ", "EXIT", "later"] []
    (fun _ _ _ => rfl)

/-- Witness for C10: the registered id `a` occurring three times in the
input yields three occurrences in the output, and the subsequent merge
deduplicates. -/
theorem getMultiple_no_dedup_witness :
    ((getMultiple regW ["a", "a", "x", "a"]).map ToolDefinition.id).count "a"
      = (["a", "a", "x", "a"]).count "a"
  ∧ ((mergeTools [] (getMultiple regW ["a", "a", "x", "a"])).map
      ToolDefinition.id).Nodup := by
  have h := getMultiple_no_dedup regW ["a", "a", "x", "a"]
    (by unfold RegistryWF; decide)
  exact ⟨h.1 "a" rfl, h.2 []⟩

end DynamicToolSearch
